import Mathlib

/-!
Verification of the formula-detection pipeline of the testFlow repository
(`src/backend/ai/model.py`), against its natural-language specification.

The Python code is shallowly embedded: strings are `List Char`, Python floats
are modelled by exact rationals (`ℚ`), Python machine integers by `ℕ`/`ℤ`,
and fallible operations by `Except`/`Option`.  Each definition mirrors one
Python function of the source and keeps its name where Lean allows it.
-/

/-- Python `p in s` (substring containment) on character lists. -/
def isSubstr (p : List Char) : List Char → Bool
  | [] => p.isPrefixOf []
  | c :: rest => p.isPrefixOf (c :: rest) || isSubstr p rest

theorem isSubstr_iff (p s : List Char) : isSubstr p s = true ↔ p <:+: s := by
  induction s with
  | nil =>
    simp only [isSubstr, List.isPrefixOf_iff_prefix, List.prefix_nil, List.infix_nil]
  | cons c rest ih =>
    simp only [isSubstr, Bool.or_eq_true, List.isPrefixOf_iff_prefix, ih]
    constructor
    · rintro (h | h)
      · exact h.isInfix
      · exact h.trans (List.suffix_cons c rest).isInfix
    · intro h
      rcases List.infix_cons_iff.mp h with h | h
      · exact Or.inl h
      · exact Or.inr h

/-! ### Bracket balance checkers

`ModelManager._check_symbol_balance` and
`FormulaDetector._check_balanced_structure` are two separate stack-based
matchers over the pairs `{}`,`[]`,`()`.  Each is embedded on its own, mirroring
its own source function. -/

/-- Membership of the keys of the Python dict `{'{': '}', '[': ']', '(': ')'}`. -/
def isOpener (c : Char) : Bool := c = '{' || c = '[' || c = '('

/-- Membership of the values of that dict (`char in pairs.values()`). -/
def isCloser (c : Char) : Bool := c = '}' || c = ']' || c = ')'

/-- The dict lookup `pairs[opening]`; only ever applied to the three openers. -/
def matchingClose : Char → Char
  | '{' => '}'
  | '[' => ']'
  | '(' => ')'
  | c => c

/-- One loop iteration of `ModelManager._check_symbol_balance`.  `none` is the
state after an early `return False`. -/
def balanceStep (st : Option (List Char)) (ch : Char) : Option (List Char) :=
  match st with
  | none => none
  | some stack =>
    if isOpener ch then some (ch :: stack)
    else if isCloser ch then
      match stack with
      | [] => none
      | top :: rest => if ch = matchingClose top then some rest else none
    else some stack

/-- `ModelManager._check_symbol_balance` (model.py lines 254-268). -/
def check_symbol_balance (latex : List Char) : Bool :=
  match latex.foldl balanceStep (some []) with
  | some stack => stack.isEmpty
  | none => false

/-- One loop iteration of `FormulaDetector._check_balanced_structure`
(the `brackets` dict of that function is the same as `pairs` above). -/
def balancedStructStep (st : Option (List Char)) (ch : Char) : Option (List Char) :=
  match st with
  | none => none
  | some stack =>
    if isOpener ch then some (ch :: stack)
    else if isCloser ch then
      match stack with
      | [] => none
      | top :: rest => if ch = matchingClose top then some rest else none
    else some stack

/-- `FormulaDetector._check_balanced_structure` (model.py lines 1087-1106).
The `try/except` of the source cannot fire (iterating a string never raises),
so the embedding is the plain loop. -/
def check_balanced_structure (formula : List Char) : Bool :=
  match formula.foldl balancedStructStep (some []) with
  | some stack => stack.isEmpty
  | none => false

/-- Claim C10: the two bracket-balance checkers of the code,
`ModelManager._check_symbol_balance` and
`FormulaDetector._check_balanced_structure`, agree on every input string. -/
theorem check_balance_checkers_agree (s : List Char) :
    check_symbol_balance s = check_balanced_structure s := by
  have hstep : balanceStep = balancedStructStep := by
    funext st ch
    cases st <;> rfl
  unfold check_symbol_balance check_balanced_structure
  rw [hstep]

/-! ### Soundness of the balance check (C3) -/

theorem foldl_balanceStep_none (l : List Char) :
    l.foldl balanceStep none = none := by
  induction l with
  | nil => rfl
  | cons c rest ih => simpa [balanceStep] using ih

theorem balanceStep_count {stack stack' : List Char} {ch o : Char}
    (ho : o = '{' ∨ o = '[' ∨ o = '(')
    (hstack : ∀ x ∈ stack, isOpener x = true)
    (h : balanceStep (some stack) ch = some stack') :
    (stack'.count o + (if ch = matchingClose o then 1 else 0)
        = stack.count o + (if ch = o then 1 else 0))
    ∧ ∀ x ∈ stack', isOpener x = true := by
  unfold balanceStep at h
  by_cases hop : isOpener ch = true
  · simp only [hop, if_true] at h
    obtain rfl : ch :: stack = stack' := by injection h
    have hcs : ch = '{' ∨ ch = '[' ∨ ch = '(' := by
      simpa [isOpener, or_assoc] using hop
    refine ⟨?_, ?_⟩
    · rcases ho with rfl | rfl | rfl <;> rcases hcs with rfl | rfl | rfl <;>
        simp [List.count_cons, matchingClose]
    · intro x hx
      rcases List.mem_cons.mp hx with rfl | hx
      · exact hop
      · exact hstack x hx
  · simp only [hop, if_false, Bool.not_eq_true] at h
    by_cases hcl : isCloser ch = true
    · simp only [hcl, if_true] at h
      match hstk : stack with
      | [] => simp [hstk] at h
      | top :: rest =>
        by_cases htop : ch = matchingClose top
        · simp only [htop, if_true] at h
          obtain rfl : rest = stack' := by injection h
          have htops : top = '{' ∨ top = '[' ∨ top = '(' := by
            simpa [isOpener, or_assoc] using hstack top (by simp)
          refine ⟨?_, fun x hx => hstack x (List.mem_cons_of_mem top hx)⟩
          subst htop
          rcases ho with rfl | rfl | rfl <;> rcases htops with rfl | rfl | rfl <;>
            simp [List.count_cons, matchingClose]
        · simp [htop] at h
    · simp only [hcl, if_false] at h
      obtain rfl : stack = stack' := by injection h
      have hcho : ch ≠ o := by
        intro hcontra
        subst hcontra
        rcases ho with rfl | rfl | rfl <;> simp [isOpener] at hop
      have hchc : ch ≠ matchingClose o := by
        intro hcontra
        subst hcontra
        rcases ho with rfl | rfl | rfl <;> simp [isCloser, matchingClose] at hcl
      exact ⟨by simp [hcho, hchc], hstack⟩

theorem foldl_balanceStep_count {o : Char} (ho : o = '{' ∨ o = '[' ∨ o = '(')
    (s : List Char) :
    ∀ stack stack', (∀ x ∈ stack, isOpener x = true) →
      s.foldl balanceStep (some stack) = some stack' →
      (stack'.count o + s.count (matchingClose o) = stack.count o + s.count o)
      ∧ ∀ x ∈ stack', isOpener x = true := by
  induction s with
  | nil =>
    intro stack stack' hstack h
    obtain rfl : stack = stack' := by injection h
    exact ⟨by simp, hstack⟩
  | cons ch rest ih =>
    intro stack stack' hstack h
    simp only [List.foldl_cons] at h
    match hmid : balanceStep (some stack) ch with
    | none => rw [hmid, foldl_balanceStep_none] at h; exact absurd h (by simp)
    | some stack₁ =>
      rw [hmid] at h
      obtain ⟨hcount₁, hop₁⟩ := balanceStep_count ho hstack hmid
      obtain ⟨hcount₂, hop₂⟩ := ih stack₁ stack' hop₁ h
      refine ⟨?_, hop₂⟩
      simp only [List.count_cons, beq_iff_eq]
      omega

theorem foldl_balanceStep_append (a b : List Char) {stack' : List Char}
    (h : (a ++ b).foldl balanceStep (some []) = some stack') :
    ∃ stack₁, a.foldl balanceStep (some []) = some stack₁ := by
  rw [List.foldl_append] at h
  match hmid : a.foldl balanceStep (some []) with
  | none => rw [hmid, foldl_balanceStep_none] at h; exact absurd h (by simp)
  | some stack₁ => exact ⟨stack₁, rfl⟩

/-- A successful step on a closing symbol pops: the stack is nonempty and its
top is the matching opener of that symbol. -/
theorem balanceStep_closer {stack stack₂ : List Char} {c : Char}
    (hcl : isCloser c = true)
    (h : balanceStep (some stack) c = some stack₂) :
    ∃ top rest, stack = top :: rest ∧ c = matchingClose top ∧ stack₂ = rest := by
  have hcs : c = '}' ∨ c = ']' ∨ c = ')' := by
    simpa [isCloser, or_assoc] using hcl
  have hop : isOpener c = false := by
    rcases hcs with rfl | rfl | rfl <;> rfl
  unfold balanceStep at h
  simp only [hop, Bool.false_eq_true, if_false, hcl, if_true] at h
  cases stack with
  | nil => exact absurd h (by simp)
  | cons top rest =>
    have h' : (if c = matchingClose top then some rest else none) = some stack₂ := h
    by_cases ht : c = matchingClose top
    · rw [if_pos ht] at h'
      exact ⟨top, rest, rfl, ht, (Option.some.inj h').symm⟩
    · rw [if_neg ht] at h'
      exact absurd h' (by simp)

/-- On an accepted string, at the position of each closing symbol there are
strictly more earlier openers of its kind than earlier closers: a matching
earlier unclosed opener exists. -/
theorem run_closer_strict (p q : List Char) (o : Char)
    (ho : o = '{' ∨ o = '[' ∨ o = '(')
    (hrun : (p ++ matchingClose o :: q).foldl balanceStep (some []) = some []) :
    p.count (matchingClose o) < p.count o := by
  obtain ⟨st₁, hp⟩ := foldl_balanceStep_append p (matchingClose o :: q) hrun
  rw [List.foldl_append, hp] at hrun
  simp only [List.foldl_cons] at hrun
  match hmid : balanceStep (some st₁) (matchingClose o) with
  | none =>
    rw [hmid, foldl_balanceStep_none] at hrun
    exact absurd hrun (by simp)
  | some st₂ =>
    obtain ⟨hcount, hops⟩ := foldl_balanceStep_count ho p [] st₁ (by simp) hp
    have hcl : isCloser (matchingClose o) = true := by
      rcases ho with rfl | rfl | rfl <;> rfl
    obtain ⟨top, rest, hst, hmc, -⟩ := balanceStep_closer hcl hmid
    have htop : isOpener top = true := by
      refine hops top ?_
      rw [hst]
      exact List.mem_cons_self _ _
    have htops : top = '{' ∨ top = '[' ∨ top = '(' := by
      simpa [isOpener, or_assoc] using htop
    have hto : top = o := by
      rcases ho with rfl | rfl | rfl <;> rcases htops with rfl | rfl | rfl <;>
        first
          | rfl
          | (exact absurd hmc (by decide))
    have hst' : st₁ = o :: rest := by rw [hst, hto]
    rw [hst', List.count_cons_self, List.count_nil] at hcount
    omega

/-- Claim C3: every string accepted by the stack-based bracket-balance check
`ModelManager._check_symbol_balance` has equally many `{` and `}`, `[` and `]`,
`(` and `)`; in every prefix, each kind of closing symbol occurs at most as
often as its matching opener; and at every closing symbol of the string there
is a matching earlier unclosed opener of the same kind (strictly more earlier
openers of that kind than earlier closers). -/
theorem check_symbol_balance_sound (s : List Char)
    (h : check_symbol_balance s = true) :
    (s.count '}' = s.count '{' ∧ s.count ']' = s.count '[' ∧
        s.count ')' = s.count '(') ∧
    (∀ p q : List Char, s = p ++ q →
      p.count '}' ≤ p.count '{' ∧ p.count ']' ≤ p.count '[' ∧
        p.count ')' ≤ p.count '(') ∧
    ∀ p : List Char, ∀ c : Char, ∀ q : List Char, s = p ++ c :: q →
      (c = '}' → p.count '}' < p.count '{') ∧
      (c = ']' → p.count ']' < p.count '[') ∧
      (c = ')' → p.count ')' < p.count '(') := by
  unfold check_symbol_balance at h
  match hrun : s.foldl balanceStep (some []) with
  | none => rw [hrun] at h; exact absurd h (by simp)
  | some stack =>
    rw [hrun] at h
    obtain rfl : stack = [] := by simpa [List.isEmpty_iff] using h
    refine ⟨?_, ?_, ?_⟩
    · refine ⟨?_, ?_, ?_⟩
      · have := (foldl_balanceStep_count (Or.inl rfl) s [] [] (by simp) hrun).1
        simpa [matchingClose] using this
      · have := (foldl_balanceStep_count (Or.inr (Or.inl rfl)) s [] [] (by simp) hrun).1
        simpa [matchingClose] using this
      · have := (foldl_balanceStep_count (Or.inr (Or.inr rfl)) s [] [] (by simp) hrun).1
        simpa [matchingClose] using this
    · intro p q hpq
      subst hpq
      obtain ⟨stack₁, hp⟩ := foldl_balanceStep_append p q hrun
      refine ⟨?_, ?_, ?_⟩
      · have := (foldl_balanceStep_count (Or.inl rfl) p [] stack₁ (by simp) hp).1
        simp only [matchingClose, List.count_nil] at this
        omega
      · have := (foldl_balanceStep_count (Or.inr (Or.inl rfl)) p [] stack₁ (by simp) hp).1
        simp only [matchingClose, List.count_nil] at this
        omega
      · have := (foldl_balanceStep_count (Or.inr (Or.inr rfl)) p [] stack₁ (by simp) hp).1
        simp only [matchingClose, List.count_nil] at this
        omega
    · intro p c q hpcq
      subst hpcq
      refine ⟨?_, ?_, ?_⟩
      · rintro rfl
        exact run_closer_strict p q '{' (Or.inl rfl) hrun
      · rintro rfl
        exact run_closer_strict p q '[' (Or.inr (Or.inl rfl)) hrun
      · rintro rfl
        exact run_closer_strict p q '(' (Or.inr (Or.inr rfl)) hrun

/-- Witness for C3 at the concrete accepted string `"\\frac{(a)}{[b]}"`. -/
theorem check_symbol_balance_sound_witness :
    check_symbol_balance "\\frac\x7b(a)\x7d\x7b[b]\x7d".toList = true ∧
    (("\\frac\x7b(a)\x7d\x7b[b]\x7d".toList.count '}'
        = "\\frac\x7b(a)\x7d\x7b[b]\x7d".toList.count '{' ∧
      "\\frac\x7b(a)\x7d\x7b[b]\x7d".toList.count ']'
        = "\\frac\x7b(a)\x7d\x7b[b]\x7d".toList.count '[' ∧
      "\\frac\x7b(a)\x7d\x7b[b]\x7d".toList.count ')'
        = "\\frac\x7b(a)\x7d\x7b[b]\x7d".toList.count '(') ∧
    (∀ p q : List Char, "\\frac\x7b(a)\x7d\x7b[b]\x7d".toList = p ++ q →
      p.count '}' ≤ p.count '{' ∧ p.count ']' ≤ p.count '[' ∧
        p.count ')' ≤ p.count '(') ∧
    ∀ p : List Char, ∀ c : Char, ∀ q : List Char,
      "\\frac\x7b(a)\x7d\x7b[b]\x7d".toList = p ++ c :: q →
      (c = '}' → p.count '}' < p.count '{') ∧
      (c = ']' → p.count ']' < p.count '[') ∧
      (c = ')' → p.count ')' < p.count '(')) := by
  refine ⟨by decide, ?_⟩
  exact check_symbol_balance_sound _ (by decide)

/-! ### `LatexProcessor.is_valid_latex` (model.py lines 534-557)

Each regex of the Python pattern battery is embedded as an executable matcher
with `re.search` semantics (match anywhere in the string). -/

/-- Python whitespace class `\s` (ASCII part). -/
def isPySpace (c : Char) : Bool :=
  c = ' ' || c = '\t' || c = '\n' || c = '\r' || c = '\x0b' || c = '\x0c'

/-- Helper for `\\[a-zA-Z]+{`: accepts `letter* '{'` (after the first letter). -/
def lettersThenBrace : List Char → Bool
  | [] => false
  | c :: rest => c = '{' || (c.isAlpha && lettersThenBrace rest)

/-- Helper for `\\[a-zA-Z]+\s`: accepts `letter* whitespace` (after the first
letter). -/
def lettersThenSpace : List Char → Bool
  | [] => false
  | c :: rest => isPySpace c || (c.isAlpha && lettersThenSpace rest)

/-- Does the regex `\\[a-zA-Z]+{` match at the start of the string? -/
def startsCmdBrace : List Char → Bool
  | '\\' :: c :: rest => c.isAlpha && lettersThenBrace rest
  | _ => false

/-- Does the regex `\\[a-zA-Z]+\s` match at the start of the string? -/
def startsCmdSpace : List Char → Bool
  | '\\' :: c :: rest => c.isAlpha && lettersThenSpace rest
  | _ => false

/-- `re.search` from an anchored matcher: try every suffix. -/
def scanFor (f : List Char → Bool) : List Char → Bool
  | [] => f []
  | c :: rest => f (c :: rest) || scanFor f rest

/-- After an opening `$`: is there a closing `$` before any newline
(regex `.` does not cross `\n`)? -/
def dollarTail : List Char → Bool
  | [] => false
  | c :: rest => if c = '$' then true else if c = '\n' then false else dollarTail rest

/-- The regex `\$.*\$` under `re.search`. -/
def dollarPair : List Char → Bool
  | [] => false
  | c :: rest => (if c = '$' then dollarTail rest else false) || dollarPair rest

/-- `LatexProcessor.is_valid_latex`: `any(re.search(pattern, text) ...)` over
the fixed battery, in source order. -/
def is_valid_latex (text : List Char) : Bool :=
  scanFor startsCmdBrace text ||
  scanFor startsCmdSpace text ||
  dollarPair text ||
  text.any Char.isDigit ||
  text.any (fun c => c = '+' || c = '-' || c = '*' || c = '/' || c = '=') ||
  isSubstr "\\frac".toList text ||
  isSubstr "\\sum".toList text ||
  isSubstr "\\int".toList text ||
  isSubstr "\\sqrt".toList text ||
  isSubstr "\\lim".toList text ||
  isSubstr "\\infty".toList text ||
  (isSubstr "\\alpha".toList text || isSubstr "\\beta".toList text ||
    isSubstr "\\gamma".toList text || isSubstr "\\delta".toList text) ||
  (isSubstr "\\sin".toList text || isSubstr "\\cos".toList text ||
    isSubstr "\\tan".toList text) ||
  (isSubstr "\\log".toList text || isSubstr "\\ln".toList text) ||
  isSubstr "\\partial".toList text ||
  isSubstr "\\nabla".toList text ||
  isSubstr "\\vec".toList text ||
  isSubstr "\\matrix".toList text

/-! ### `FormulaDetector._calculate_confidence` (model.py lines 1056-1085)

The construct bonus iterates `math_symbols = [r'\\\\frac', r'\\\\sum',
r'\\\\int', r'\\\\sqrt']` and tests `symbol in formula` - plain substring
containment of the raw strings, each of which spells a DOUBLE backslash
followed by the construct name.  Python float arithmetic is modelled exactly
over `ℚ` (0.2, 0.15, 0.3 become 2/10, 3/20, 3/10); every comparison the
pipeline performs on these scores (the 90 threshold, the `min` cap, and the
monotonicity verdicts below) is unaffected by the sub-ulp noise of the float
sums, since matching bonus multisets are added in identical order. -/

def calculate_confidence (formula : List Char) : ℚ :=
  let c_len : ℚ := if 10 < formula.length then 2/10 else 0
  let c_sym : ℚ :=
    (if isSubstr "\\\\frac".toList formula then 3/20 else 0) +
    (if isSubstr "\\\\sum".toList formula then 3/20 else 0) +
    (if isSubstr "\\\\int".toList formula then 3/20 else 0) +
    (if isSubstr "\\\\sqrt".toList formula then 3/20 else 0)
  let c_bal : ℚ := if check_balanced_structure formula then 2/10 else 0
  let c_val : ℚ := if is_valid_latex formula then 3/10 else 0
  min ((c_len + c_sym + c_bal + c_val) * 100) 100

/-! ### Formula records and `FormulaDetector._validate_formulas` (C1) -/

/-- One detected-formula dict as built by `FormulaDetector._process_pdf_page`:
`{'formula': ..., 'tipo': ..., 'pagina': ..., 'confidence': ..., 'origen': ...}`. -/
structure FormulaRec where
  formula : List Char
  tipo : String
  pagina : ℕ
  confidence : ℚ
  origen : String
deriving DecidableEq, Repr

/-- The record passes all three filters of `_validate_formulas`:
`confidence >= 90`, `is_valid_latex`, `_check_balanced_structure`. -/
def passes_filters (r : FormulaRec) : Bool :=
  decide (90 ≤ r.confidence) && is_valid_latex r.formula &&
    check_balanced_structure r.formula

/-- The loop of `FormulaDetector._validate_formulas` (model.py lines 1108-1133);
`seen` is the `seen_formulas` set, which gains a text exactly when the record
is appended. -/
def validate_formulas_aux : List FormulaRec → List (List Char) → List FormulaRec
  | [], _ => []
  | r :: rs, seen =>
    if r.formula ∈ seen then validate_formulas_aux rs seen
    else if r.confidence < 90 then validate_formulas_aux rs seen
    else if is_valid_latex r.formula && check_balanced_structure r.formula then
      r :: validate_formulas_aux rs (r.formula :: seen)
    else validate_formulas_aux rs seen

/-- `FormulaDetector._validate_formulas`. -/
def validate_formulas (formulas : List FormulaRec) : List FormulaRec :=
  validate_formulas_aux formulas []

/-- Specification-side dedup: keep the first record of each formula text
(used to state the "first occurrence kept" part of claim C1). -/
def dedup_first : List FormulaRec → List (List Char) → List FormulaRec
  | [], _ => []
  | r :: rs, seen =>
    if r.formula ∈ seen then dedup_first rs seen
    else r :: dedup_first rs (r.formula :: seen)


theorem validate_formulas_aux_eq (l : List FormulaRec) :
    ∀ seen, validate_formulas_aux l seen =
      dedup_first (l.filter passes_filters) seen := by
  induction l with
  | nil => intro seen; rfl
  | cons r rs ih =>
    intro seen
    by_cases hA : r.confidence < 90
    · have hpass : passes_filters r = false := by
        simp [passes_filters, not_le.mpr hA]
      by_cases hseen : r.formula ∈ seen <;>
        simp [validate_formulas_aux, hseen, hA, List.filter_cons, hpass, ih]
    · by_cases hB : (is_valid_latex r.formula && check_balanced_structure r.formula) = true
      · have hpass : passes_filters r = true := by
          simp only [passes_filters, Bool.and_eq_true] at hB ⊢
          exact ⟨⟨by simpa using not_lt.mp hA, hB.1⟩, hB.2⟩
        by_cases hseen : r.formula ∈ seen <;>
          simp [validate_formulas_aux, dedup_first, hseen, hA, hB, List.filter_cons,
            hpass, ih]
      · have hpass : passes_filters r = false := by
          have hvb : (is_valid_latex r.formula &&
              check_balanced_structure r.formula) = false := by
            simpa using hB
          simp [passes_filters, Bool.and_assoc, hvb]
        by_cases hseen : r.formula ∈ seen <;>
          simp [validate_formulas_aux, hseen, hA, hB, List.filter_cons, hpass, ih]

theorem validate_formulas_aux_passes (l : List FormulaRec) :
    ∀ seen r, r ∈ validate_formulas_aux l seen → passes_filters r = true := by
  induction l with
  | nil => intro seen r h; exact absurd h (by simp [validate_formulas_aux])
  | cons x rs ih =>
    intro seen r h
    unfold validate_formulas_aux at h
    split at h
    · exact ih _ r h
    · split at h
      · exact ih _ r h
      · split at h
        · rcases List.mem_cons.mp h with rfl | h'
          · rename_i hseen h90 hvb
            simp only [passes_filters, Bool.and_eq_true]
            constructor
            · constructor
              · simpa using not_lt.mp h90
              · exact (Bool.and_eq_true _ _ |>.mp hvb).1
            · exact (Bool.and_eq_true _ _ |>.mp hvb).2
          · exact ih _ r h'
        · exact ih _ r h

theorem validate_formulas_aux_not_seen (l : List FormulaRec) :
    ∀ seen r, r ∈ validate_formulas_aux l seen → r.formula ∉ seen := by
  induction l with
  | nil => intro seen r h; exact absurd h (by simp [validate_formulas_aux])
  | cons x rs ih =>
    intro seen r h
    unfold validate_formulas_aux at h
    split at h
    · exact ih _ r h
    · split at h
      · exact ih _ r h
      · split at h
        · rcases List.mem_cons.mp h with rfl | h'
          · rename_i hseen _ _
            exact hseen
          · intro hcontra
            exact ih _ r h' (List.mem_cons_of_mem _ hcontra)
        · exact ih _ r h

theorem validate_formulas_aux_nodup (l : List FormulaRec) :
    ∀ seen, ((validate_formulas_aux l seen).map FormulaRec.formula).Nodup := by
  induction l with
  | nil => intro seen; simp [validate_formulas_aux]
  | cons x rs ih =>
    intro seen
    unfold validate_formulas_aux
    split
    · exact ih _
    · split
      · exact ih _
      · split
        · simp only [List.map_cons, List.nodup_cons]
          refine ⟨?_, ih _⟩
          intro hcontra
          obtain ⟨r, hr, hfr⟩ := List.mem_map.mp hcontra
          have := validate_formulas_aux_not_seen rs _ r hr
          exact this (by simp [hfr])
        · exact ih _

/-- Claim C1: every record returned by `FormulaDetector._validate_formulas`
has confidence at least 90 (on the 0-100 scale), balanced `{}`/`[]`/`()`
structure, and passes the validity pattern check; no two returned records have
identical formula text; and the output keeps, for each text, exactly the first
input record (in input order) that passes all filters. -/
theorem validate_formulas_spec (l : List FormulaRec) :
    (∀ r ∈ validate_formulas l,
      90 ≤ r.confidence ∧ check_balanced_structure r.formula = true ∧
        is_valid_latex r.formula = true) ∧
    ((validate_formulas l).map FormulaRec.formula).Nodup ∧
    validate_formulas l = dedup_first (l.filter passes_filters) [] := by
  refine ⟨?_, validate_formulas_aux_nodup l [], validate_formulas_aux_eq l []⟩
  intro r hr
  have h := validate_formulas_aux_passes l [] r hr
  simp only [passes_filters, Bool.and_eq_true, decide_eq_true_eq] at h
  exact ⟨h.1.1, h.2, h.1.2⟩

/-! ### `LatexProcessor.classify_problem` (model.py lines 559-590, claim C5)

The Python `types` dict preserves insertion order, so it is embedded as an
ordered list of (matcher, label) pairs; every regex of the table is either a
literal substring, an alternation of literals, or (for the derivative pattern
`\\frac{d}{d[x-z]}`) a literal with a one-character class. -/

def matchDerivFrac (s : List Char) : Bool :=
  isSubstr "\\frac\x7bd\x7d\x7bdx\x7d".toList s ||
  isSubstr "\\frac\x7bd\x7d\x7bdy\x7d".toList s ||
  isSubstr "\\frac\x7bd\x7d\x7bdz\x7d".toList s

def classify_types : List ((List Char → Bool) × String) :=
  [(isSubstr "\\int".toList, "Integral"),
   (isSubstr "\\lim".toList, "Límite"),
   (matchDerivFrac, "Derivada"),
   (isSubstr "\\sum".toList, "Suma"),
   (isSubstr "=".toList, "Ecuación"),
   (isSubstr "\\sqrt".toList, "Raíz"),
   (isSubstr "\\log".toList, "Logaritmo"),
   (fun s => isSubstr "\\sin".toList s || isSubstr "\\cos".toList s ||
      isSubstr "\\tan".toList s, "Trigonometría"),
   (isSubstr "\\matrix".toList, "Matriz"),
   (isSubstr "\\vec".toList, "Vector"),
   (fun s => isSubstr "\\alpha".toList s || isSubstr "\\beta".toList s ||
      isSubstr "\\gamma".toList s || isSubstr "\\delta".toList s, "Letras griegas"),
   (isSubstr "\\pi".toList, "Número pi"),
   (isSubstr "\\infty".toList, "Infinito"),
   (isSubstr "\\partial".toList, "Derivada parcial"),
   (isSubstr "\\nabla".toList, "Gradiente"),
   (isSubstr "\\mathrm".toList, "Función matemática"),
   (isSubstr "\\text".toList, "Texto"),
   (isSubstr "\\operatorname".toList, "Operador"),
   (isSubstr "\\begin\x7bmatrix\x7d".toList, "Matriz"),
   (isSubstr "\\end\x7bmatrix\x7d".toList, "Matriz"),
   (isSubstr "\\begin\x7bsum\x7d".toList, "Sumatoria"),
   (isSubstr "\\end\x7bsum\x7d".toList, "Sumatoria")]

/-- The `for pattern, problem_type in types.items()` loop. -/
def classify_scan : List ((List Char → Bool) × String) → List Char → String
  | [], _ => "Expresión algebraica"
  | (pat, label) :: rest, s => if pat s then label else classify_scan rest s

/-- `LatexProcessor.classify_problem`. -/
def classify_problem (latex_formula : List Char) : String :=
  classify_scan classify_types latex_formula

theorem classify_scan_default (table : List ((List Char → Bool) × String))
    (s : List Char) (h : ∀ pl ∈ table, pl.1 s = false) :
    classify_scan table s = "Expresión algebraica" := by
  induction table with
  | nil => rfl
  | cons pl rest ih =>
    obtain ⟨pat, label⟩ := pl
    have hp : pat s = false := h (pat, label) (by simp)
    simp only [classify_scan, hp]
    simp only [Bool.false_eq_true, if_false]
    exact ih fun pl' hpl' => h pl' (List.mem_cons_of_mem _ hpl')

theorem classify_scan_first (pre post : List ((List Char → Bool) × String))
    (pl : (List Char → Bool) × String) (s : List Char)
    (hmatch : pl.1 s = true) (hpre : ∀ pl' ∈ pre, pl'.1 s = false) :
    classify_scan (pre ++ pl :: post) s = pl.2 := by
  induction pre with
  | nil =>
    obtain ⟨pat, label⟩ := pl
    simp only [List.nil_append, classify_scan]
    simp only at hmatch
    simp [hmatch]
  | cons q rest ih =>
    obtain ⟨qpat, qlabel⟩ := q
    have hq : qpat s = false := hpre (qpat, qlabel) (by simp)
    simp only [List.cons_append, classify_scan, hq]
    simp only [Bool.false_eq_true, if_false]
    exact ih fun pl' hpl' => hpre pl' (List.mem_cons_of_mem _ hpl')

/-- Claim C5: `classify_problem` scans its pattern table in fixed order and
returns the label of the first matching pattern, the default label
`"Expresión algebraica"` being returned exactly when no pattern matches; in
particular any formula containing both `\int` and `=` is classified
`"Integral"` (the Integral pattern precedes the Equation pattern). -/
theorem classify_problem_first_match (s : List Char) :
    ((∀ pl ∈ classify_types, pl.1 s = false) →
      classify_problem s = "Expresión algebraica") ∧
    (∀ pre post pl, classify_types = pre ++ pl :: post → pl.1 s = true →
      (∀ pl' ∈ pre, pl'.1 s = false) → classify_problem s = pl.2) ∧
    (isSubstr "\\int".toList s = true → isSubstr "=".toList s = true →
      classify_problem s = "Integral") := by
  refine ⟨fun h => classify_scan_default _ s h, fun pre post pl htab hm hp => ?_, ?_⟩
  · unfold classify_problem
    rw [htab]
    exact classify_scan_first pre post pl s hm hp
  · intro hint _
    have hint' : isSubstr ['\\', 'i', 'n', 't'] s = true := hint
    unfold classify_problem classify_types
    simp [classify_scan, hint']

/-- Witness for C5 at the concrete formula `"\\int x = 1"`, which contains both
`\int` and `=` and is classified `"Integral"`. -/
theorem classify_problem_first_match_witness :
    isSubstr "\\int".toList "\\int x = 1".toList = true ∧
    isSubstr "=".toList "\\int x = 1".toList = true ∧
    classify_problem "\\int x = 1".toList = "Integral" :=
  ⟨by decide, by decide,
    (classify_problem_first_match "\\int x = 1".toList).2.2 (by decide) (by decide)⟩

/-! ### `FormulaDetector.process_pdf` (model.py lines 900-951, claims C4, C9)

The per-page work (`_process_pdf_page`, which drives the vision model and PDF
library) is abstracted as a function `pageResults : ℕ → List FormulaRec`
giving the records each page unit produces, and the nondeterministic
`as_completed` iteration is abstracted as an explicit `completionOrder`
listing the page indices in the order their futures complete.  The collected
list is the concatenation of the per-page blocks in completion order, then
`_validate_formulas` is applied; the source contains no re-sort. -/

def process_pdf (pageResults : ℕ → List FormulaRec) (numPages : ℕ)
    (completionOrder : List ℕ) : Except String (List FormulaRec) :=
  if 50 < numPages then Except.error "El PDF excede el límite de 50 páginas"
  else if numPages < 1 then Except.error "El PDF debe tener al menos 1 página"
  else Except.ok (validate_formulas (completionOrder.map pageResults).flatten)

/-- Claim C4: a document with more than 50 pages, or with 0 pages, is rejected
by `process_pdf` with a page-count error before any page unit is dispatched:
the outcome is the error independently of the per-page work and of any
completion order, and no formulas are produced. -/
theorem process_pdf_rejects_bad_page_count
    (pageResults : ℕ → List FormulaRec) (numPages : ℕ)
    (completionOrder : List ℕ) :
    (50 < numPages → process_pdf pageResults numPages completionOrder =
      Except.error "El PDF excede el límite de 50 páginas") ∧
    (numPages = 0 → process_pdf pageResults numPages completionOrder =
      Except.error "El PDF debe tener al menos 1 página") := by
  constructor
  · intro h
    simp [process_pdf, h]
  · intro h
    subst h
    simp [process_pdf]

/-- Witness for C4: a 51-page document is rejected with the page-count error
(for an arbitrary concrete per-page behaviour, here the empty one). -/
theorem process_pdf_rejects_bad_page_count_witness :
    50 < 51 ∧
    process_pdf (fun _ => []) 51 [] =
      Except.error "El PDF excede el límite de 50 páginas" :=
  ⟨by decide, (process_pdf_rejects_bad_page_count (fun _ => []) 51 []).1 (by decide)⟩

/-! ### Claim C9: output order of `process_pdf`

`process_pdf` collects page results with `as_completed` (completion order) and
`_validate_formulas` preserves that order; no re-sort by page number exists in
the code, contradicting both the spec ("re-sorting by page number for final
output") and the source comment claiming order is maintained.  The concrete
run below shows a 2-page document whose second page completes first and whose
output pages are `[2, 1]`. -/

deriving instance DecidableEq for Except

def c9_formula_page1 : List Char := "\\\\frac\x7b1\x7d\x7b2\x7d+\\\\int x".toList

def c9_formula_page2 : List Char := "\\\\frac\x7b1\x7d\x7b3\x7d+\\\\int y".toList

/-- A record as `_process_pdf_page` builds it for page index `n` (pagina is
`page_num + 1`, tipo from `classify_problem`, confidence from
`_calculate_confidence`). -/
def c9_record (f : List Char) (n : ℕ) : FormulaRec :=
  { formula := f, tipo := classify_problem f, pagina := n + 1,
    confidence := calculate_confidence f, origen := "texto" }

def c9_pageResults : ℕ → List FormulaRec
  | 0 => [c9_record c9_formula_page1 0]
  | 1 => [c9_record c9_formula_page2 1]
  | _ => []

/-- Claim C9 evaluation: with completion order `[1, 0]` (page 2's unit
finishes first) on an accepted 2-page document, `process_pdf` returns the
records with page sequence `[2, 1]`, which is not sorted by page number. -/
theorem c9_confidence_eval (f : List Char) (hlen : 10 < f.length)
    (hfrac : isSubstr "\\\\frac".toList f = true)
    (hsum : isSubstr "\\\\sum".toList f = false)
    (hint : isSubstr "\\\\int".toList f = true)
    (hsqrt : isSubstr "\\\\sqrt".toList f = false)
    (hbal : check_balanced_structure f = true)
    (hval : is_valid_latex f = true) :
    calculate_confidence f = 100 := by
  simp only [calculate_confidence, hlen, hfrac, hsum, hint, hsqrt, hbal, hval,
    if_true, if_false, Bool.false_eq_true]
  norm_num

theorem process_pdf_output_not_sorted_by_page :
    process_pdf c9_pageResults 2 [1, 0] =
      Except.ok [c9_record c9_formula_page2 1, c9_record c9_formula_page1 0] ∧
    [c9_record c9_formula_page2 1, c9_record c9_formula_page1 0].map
        FormulaRec.pagina = [2, 1] ∧
    ¬ List.Sorted (· ≤ ·) [2, 1] := by
  have hconf1 : calculate_confidence c9_formula_page1 = 100 :=
    c9_confidence_eval _ (by decide) (by decide) (by decide) (by decide)
      (by decide) (by decide) (by decide)
  have hconf2 : calculate_confidence c9_formula_page2 = 100 :=
    c9_confidence_eval _ (by decide) (by decide) (by decide) (by decide)
      (by decide) (by decide) (by decide)
  refine ⟨?_, by decide, ?_⟩
  · have hne : c9_formula_page1 ≠ c9_formula_page2 := by decide
    have hvb1 : (is_valid_latex c9_formula_page1 &&
        check_balanced_structure c9_formula_page1) = true := by decide
    have hvb2 : (is_valid_latex c9_formula_page2 &&
        check_balanced_structure c9_formula_page2) = true := by decide
    simp only [process_pdf, c9_pageResults, validate_formulas,
      validate_formulas_aux, c9_record, List.map_cons, List.map_nil,
      List.flatten, List.append_nil, List.cons_append, List.nil_append,
      hconf1, hconf2, hvb1, hvb2, List.not_mem_nil, if_false, if_true,
      List.mem_singleton, List.mem_cons, hne]
    norm_num [hne.symm]
  · intro h
    have := List.rel_of_sorted_cons h 1 (by simp)
    omega

/-! ### `ImageProcessor.preprocess` (model.py lines 302-379, claim C2)

Only the geometry is relevant to the claim: stage 1 computes
`scale = max(1000 / min(height, width), 1.0)` in Python float arithmetic and
resizes to `(int(width*scale), int(height*scale))`; stages 2-8 (CLAHE,
bilateral filter, adaptive threshold, morphology, contour mask) all preserve
the dimensions of their input, so the function is embedded at the dimension
level.  Python floats are IEEE-754 binary64 doubles, so the arithmetic is
embedded exactly: a positive finite double is a dyadic number
`mantissa * 2 ^ exponent` with a 53-bit mantissa, `/` and `*` round the exact
result to nearest (ties to even), and `int()` truncates.  The embedding
covers the positive normal range, which contains every value this computation
produces for image dimensions below `2 ^ 53`. -/

/-- Floor of the base-2 logarithm (fuel-based so that it evaluates by
`decide`; the fuel covers every number below `2 ^ 4000`). -/
def floorLog2Go : ℕ → ℕ → ℕ
  | 0, _ => 0
  | fuel + 1, n => if n < 2 then 0 else floorLog2Go fuel (n / 2) + 1

def floorLog2 (n : ℕ) : ℕ := floorLog2Go 4000 n

/-- Round the exact rational `num / den` to the nearest integer, ties to
even (the IEEE-754 default rounding). -/
def roundNearestEven (num den : ℕ) : ℕ :=
  let q := num / den
  let r := num % den
  if den < 2 * r then q + 1
  else if 2 * r < den then q
  else if q % 2 = 0 then q else q + 1

/-- The binary64 double of `a / b` for positive integers `a`, `b` (Python's
true division of two ints): the exact quotient rounded to a 53-bit mantissa,
as a dyadic pair `(mantissa, exponent)` with `2^52 ≤ mantissa < 2^53`. -/
def flDiv (a b : ℕ) : ℕ × ℤ :=
  let extra := floorLog2 b + 120
  let num := a * 2 ^ extra
  let sh := floorLog2 (num / b) - 52
  let m := roundNearestEven num (b * 2 ^ sh)
  if m = 2 ^ 53 then (2 ^ 52, (sh : ℤ) - (extra : ℤ) + 1)
  else (m, (sh : ℤ) - (extra : ℤ))

/-- The binary64 product `n * x` for an integer `n < 2^53` (whose conversion
to double is exact) and a positive dyadic double `x`: the exact product
rounded to a 53-bit mantissa. -/
def flMulNat (n : ℕ) (x : ℕ × ℤ) : ℕ × ℤ :=
  let p := n * x.1
  let L := floorLog2 p
  if L ≤ 52 then (p, x.2)
  else
    let m := roundNearestEven p (2 ^ (L - 52))
    if m = 2 ^ 53 then (2 ^ 52, x.2 + ((L - 52 : ℕ) : ℤ) + 1)
    else (m, x.2 + ((L - 52 : ℕ) : ℤ))

/-- Value comparison of two positive dyadic doubles. -/
def dyadicLt (a b : ℕ × ℤ) : Bool :=
  if a.2 ≤ b.2 then a.1 < b.1 * 2 ^ (b.2 - a.2).toNat
  else a.1 * 2 ^ (a.2 - b.2).toNat < b.1

/-- The double `1.0`. -/
def floatOne : ℕ × ℤ := (2 ^ 52, -52)

/-- Python `int()` on a positive double (truncation toward zero = floor). -/
def truncDyadic (x : ℕ × ℤ) : ℕ :=
  if 0 ≤ x.2 then x.1 * 2 ^ x.2.toNat else x.1 / 2 ^ (-x.2).toNat

/-- Dimensions `(height, width)` of the image returned by
`ImageProcessor.preprocess`: `scale = max(min_dim / min(height, width), 1.0)`
with `min_dim = 1000`, then `int(height * scale)` and `int(width * scale)`,
all in binary64 double arithmetic. -/
def preprocess (height width : ℕ) : ℕ × ℕ :=
  let m := min height width
  let d := flDiv 1000 m
  let scale := if dyadicLt d floatOne then floatOne else d
  (truncDyadic (flMulNat height scale), truncDyadic (flMulNat width scale))

set_option maxRecDepth 40000 in
/-- Claim C2 (code bug): on a 19x19 input the double `1000/19` multiplied by
19 is `999.9999999999999...`, `int()` truncates it to 999, and `preprocess`
returns a 999x999 image, violating the claimed bound
`min(height, width) >= 1000` - which is what the source intends, per its
comment "Mantener aspecto pero asegurar tamaño mínimo" and `min_dim = 1000`.
A 3x3 input, whose product does round back up to 1000.0, is shown for
contrast. -/
theorem preprocess_truncates_below_min :
    preprocess 19 19 = (999, 999) ∧
    min (preprocess 19 19).1 (preprocess 19 19).2 < 1000 ∧
    preprocess 3 3 = (1000, 1000) := by
  refine ⟨by decide, by decide, by decide⟩

/-! ### `FormulaDetector.convertir_a_latex` (model.py lines 800-898) and
`LatexProcessor.convert_to_texjs` (lines 491-532), claim C6

`str.replace` and each concrete `re.sub` of the source are embedded as
executable rewriters (leftmost match, non-overlapping, continue after the
match, greedy/lazy quantifiers as in the Python patterns).  The scanners carry
a fuel argument equal to the string length so that they are structurally
recursive; every match consumes at least one character, so the fuel never runs
out on the real runs. -/

/-- Python regex class `\w` (ASCII part). -/
def isW (c : Char) : Bool := c.isAlphanum || c = '_'

/-- Python `s.replace(p, r)` (all occurrences, left to right,
non-overlapping); `p` is nonempty for every key used by the source. -/
def replaceAllGo (p r : List Char) : ℕ → List Char → List Char
  | 0, s => s
  | _ + 1, [] => []
  | fuel + 1, c :: rest =>
    if p.isPrefixOf (c :: rest) && !p.isEmpty then
      r ++ replaceAllGo p r fuel ((c :: rest).drop p.length)
    else c :: replaceAllGo p r fuel rest

def replaceAll (p r s : List Char) : List Char := replaceAllGo p r s.length s

/-- `re.sub(r'(\d+)/(\d+)', r'\\frac{\1}{\2}', s)`. -/
def subFracGo : ℕ → List Char → List Char
  | 0, s => s
  | _ + 1, [] => []
  | fuel + 1, c :: rest =>
    if c.isDigit then
      match (c :: rest).dropWhile Char.isDigit with
      | '/' :: rest2 =>
        if (rest2.takeWhile Char.isDigit).isEmpty then c :: subFracGo fuel rest
        else
          "\\frac\x7b".toList ++ (c :: rest).takeWhile Char.isDigit ++
            "\x7d\x7b".toList ++ rest2.takeWhile Char.isDigit ++ "\x7d".toList ++
            subFracGo fuel (rest2.dropWhile Char.isDigit)
      | _ => c :: subFracGo fuel rest
    else c :: subFracGo fuel rest

def subFrac (s : List Char) : List Char := subFracGo s.length s

/-- `re.sub(r'(\w+)\^(\w+)', r'{\1}^{\2}', s)`. -/
def subPowGo : ℕ → List Char → List Char
  | 0, s => s
  | _ + 1, [] => []
  | fuel + 1, c :: rest =>
    if isW c then
      match (c :: rest).dropWhile isW with
      | '^' :: rest2 =>
        if (rest2.takeWhile isW).isEmpty then c :: subPowGo fuel rest
        else
          "\x7b".toList ++ (c :: rest).takeWhile isW ++ "\x7d^\x7b".toList ++
            rest2.takeWhile isW ++ "\x7d".toList ++
            subPowGo fuel (rest2.dropWhile isW)
      | _ => c :: subPowGo fuel rest
    else c :: subPowGo fuel rest

def subPow (s : List Char) : List Char := subPowGo s.length s

/-- For `re.sub(r'(\w+)_(\w+)', r'{\1}_{\2}', s)`: since `_` is itself a `\w`
character, a match at the start of a maximal `\w`-run splits the run at its
last underscore that has at least one character on each side (greedy `\w+`
with backtracking). -/
def lastUnderSplit (run : List Char) : Option (List Char × List Char) :=
  (List.range run.length).reverse.findSome? fun j =>
    if 1 ≤ j ∧ j + 1 < run.length ∧ run.getD j ' ' = '_' then
      some (run.take j, run.drop (j + 1))
    else none

def subUnderGo : ℕ → List Char → List Char
  | 0, s => s
  | _ + 1, [] => []
  | fuel + 1, c :: rest =>
    if isW c then
      match lastUnderSplit ((c :: rest).takeWhile isW) with
      | some (g1, g2) =>
        "\x7b".toList ++ g1 ++ "\x7d_\x7b".toList ++ g2 ++ "\x7d".toList ++
          subUnderGo fuel ((c :: rest).dropWhile isW)
      | none => c :: subUnderGo fuel rest
    else c :: subUnderGo fuel rest

def subUnder (s : List Char) : List Char := subUnderGo s.length s

/-- Lazy body of `name\((.*?)\)`: everything up to the first `)` with no
newline in between. -/
def findCallBody (s : List Char) : Option (List Char × List Char) :=
  match s.dropWhile (fun c => !(c = ')' || c = '\n')) with
  | ')' :: rest2 => some (s.takeWhile (fun c => !(c = ')' || c = '\n')), rest2)
  | _ => none

/-- `re.sub(pat ++ "\\((.*?)\\)", wrap, s)` for the function-call patterns
(`sqrt(`, `sin(`, `cos(`, `tan(`, `log(`, `ln(`). -/
def subCallGo (pat : List Char) (wrap : List Char → List Char) :
    ℕ → List Char → List Char
  | 0, s => s
  | _ + 1, [] => []
  | fuel + 1, c :: rest =>
    if pat.isPrefixOf (c :: rest) then
      match findCallBody ((c :: rest).drop pat.length) with
      | some (body, rest2) => wrap body ++ subCallGo pat wrap fuel rest2
      | none => c :: subCallGo pat wrap fuel rest
    else c :: subCallGo pat wrap fuel rest

def subCall (pat : List Char) (wrap : List Char → List Char) (s : List Char) :
    List Char := subCallGo pat wrap s.length s

/-- `re.sub(r'lim_(\w+)->(\w+)', r'\\lim_{\1 \\to \2}', s)`. -/
def subLimGo : ℕ → List Char → List Char
  | 0, s => s
  | _ + 1, [] => []
  | fuel + 1, c :: rest =>
    if "lim_".toList.isPrefixOf (c :: rest) then
      let after := (c :: rest).drop 4
      if (after.takeWhile isW).isEmpty then c :: subLimGo fuel rest
      else
        match after.dropWhile isW with
        | '-' :: '>' :: rest2 =>
          if (rest2.takeWhile isW).isEmpty then c :: subLimGo fuel rest
          else
            "\\lim_\x7b".toList ++ after.takeWhile isW ++ " \\to ".toList ++
              rest2.takeWhile isW ++ "\x7d".toList ++
              subLimGo fuel (rest2.dropWhile isW)
        | _ => c :: subLimGo fuel rest
    else c :: subLimGo fuel rest

def subLim (s : List Char) : List Char := subLimGo s.length s

/-- `re.sub(pat ++ r'(\w+)\^(\w+)', cmd ++ r'_{\1}^{\2}', s)` for the bounded
integral (`int_`) and sum (`sum_`) patterns. -/
def subBoundGo (pat cmd : List Char) : ℕ → List Char → List Char
  | 0, s => s
  | _ + 1, [] => []
  | fuel + 1, c :: rest =>
    if pat.isPrefixOf (c :: rest) then
      let after := (c :: rest).drop pat.length
      if (after.takeWhile isW).isEmpty then c :: subBoundGo pat cmd fuel rest
      else
        match after.dropWhile isW with
        | '^' :: rest2 =>
          if (rest2.takeWhile isW).isEmpty then c :: subBoundGo pat cmd fuel rest
          else
            cmd ++ "_\x7b".toList ++ after.takeWhile isW ++ "\x7d^\x7b".toList ++
              rest2.takeWhile isW ++ "\x7d".toList ++
              subBoundGo pat cmd fuel (rest2.dropWhile isW)
        | _ => c :: subBoundGo pat cmd fuel rest
    else c :: subBoundGo pat cmd fuel rest

def subBound (pat cmd : List Char) (s : List Char) : List Char :=
  subBoundGo pat cmd s.length s

/-- `re.sub(r'\s+', ' ', s)`: each maximal whitespace run becomes one space. -/
def collapse_ws : List Char → List Char
  | [] => []
  | c :: rest =>
    if isPySpace c then
      match rest with
      | d :: _ => if isPySpace d then collapse_ws rest else ' ' :: collapse_ws rest
      | [] => [' ']
    else c :: collapse_ws rest

/-- Python `str.strip()`. -/
def strip_ws (s : List Char) : List Char :=
  ((s.dropWhile isPySpace).reverse.dropWhile isPySpace).reverse

/-- The `conversiones` dict of `convertir_a_latex`, as the ordered list of
(`str.replace`) rewrites Python iterates over. -/
def conversiones : List (List Char × List Char) :=
  [("+".toList, "+".toList),
   ("-".toList, "-".toList),
   ("*".toList, "\\times".toList),
   ("/".toList, "\\div".toList),
   ("sqrt".toList, "\\sqrt".toList),
   ("sin".toList, "\\sin".toList),
   ("cos".toList, "\\cos".toList),
   ("tan".toList, "\\tan".toList),
   ("log".toList, "\\log".toList),
   ("ln".toList, "\\ln".toList),
   ("lim".toList, "\\lim".toList),
   ("pi".toList, "\\pi".toList),
   ("inf".toList, "\\infty".toList),
   ("alpha".toList, "\\alpha".toList),
   ("beta".toList, "\\beta".toList),
   ("gamma".toList, "\\gamma".toList),
   ("delta".toList, "\\delta".toList),
   ("sum".toList, "\\sum".toList),
   ("int".toList, "\\int".toList),
   ("prod".toList, "\\prod".toList),
   (">=".toList, "\\geq".toList),
   ("<=".toList, "\\leq".toList),
   ("!=".toList, "\\neq".toList),
   ("~=".toList, "\\approx".toList),
   ("partial".toList, "\\partial".toList),
   ("nabla".toList, "\\nabla".toList),
   ("grad".toList, "\\nabla".toList),
   ("div".toList, "\\nabla \\cdot".toList),
   ("curl".toList, "\\nabla \\times".toList)]

/-- The `patrones` regex rewrites of `convertir_a_latex`, applied in source
order. -/
def patrones_apply (s : List Char) : List Char :=
  let s := subFrac s
  let s := subPow s
  let s := subUnder s
  let s := subCall "sqrt(".toList
    (fun b => "\\sqrt\x7b".toList ++ b ++ "\x7d".toList) s
  let s := subCall "sin(".toList
    (fun b => "\\sin(".toList ++ b ++ ")".toList) s
  let s := subCall "cos(".toList
    (fun b => "\\cos(".toList ++ b ++ ")".toList) s
  let s := subCall "tan(".toList
    (fun b => "\\tan(".toList ++ b ++ ")".toList) s
  let s := subCall "log(".toList
    (fun b => "\\log(".toList ++ b ++ ")".toList) s
  let s := subCall "ln(".toList
    (fun b => "\\ln(".toList ++ b ++ ")".toList) s
  let s := subLim s
  let s := subBound "int_".toList "\\int".toList s
  let s := subBound "sum_".toList "\\sum".toList s
  s

/-- The `texjs_conversions` dict of `convert_to_texjs` (each of these regexes
is a literal after escape processing, and each replacement template is
literal). -/
def texjs_conversions : List (List Char × List Char) :=
  [("\\left".toList, "".toList),
   ("\\right".toList, "".toList),
   ("\\mathrm\x7bd\x7d".toList, "d".toList),
   ("\\mathbb\x7bR\x7d".toList, "\\R".toList),
   ("\\mathbb\x7bN\x7d".toList, "\\N".toList),
   ("\\mathbb\x7bZ\x7d".toList, "\\Z".toList),
   ("\\begin\x7barray\x7d".toList, "\\begin\x7bmatrix\x7d".toList),
   ("\\end\x7barray\x7d".toList, "\\end\x7bmatrix\x7d".toList),
   ("\\text".toList, "\\mathrm".toList),
   ("\\operatorname".toList, "\\mathrm".toList),
   ("\\displaystyle".toList, "".toList)]

/-- `re.sub(r'\\frac{([^{}]+)}{([^{}]+)}', r'\\frac{\1}{\2}', s)`: the
replacement template rebuilds exactly the matched text. -/
def texjsFracGo : ℕ → List Char → List Char
  | 0, s => s
  | _ + 1, [] => []
  | fuel + 1, c :: rest =>
    if "\\frac\x7b".toList.isPrefixOf (c :: rest) then
      let after := (c :: rest).drop 6
      let g1 := after.takeWhile fun x => !(x = '{' || x = '}')
      if g1.isEmpty then c :: texjsFracGo fuel rest
      else
        match after.dropWhile (fun x => !(x = '{' || x = '}')) with
        | '}' :: '{' :: rest2 =>
          let g2 := rest2.takeWhile fun x => !(x = '{' || x = '}')
          if g2.isEmpty then c :: texjsFracGo fuel rest
          else
            match rest2.dropWhile (fun x => !(x = '{' || x = '}')) with
            | '}' :: rest3 =>
              "\\frac\x7b".toList ++ g1 ++ "\x7d\x7b".toList ++ g2 ++
                "\x7d".toList ++ texjsFracGo fuel rest3
            | _ => c :: texjsFracGo fuel rest
        | _ => c :: texjsFracGo fuel rest
    else c :: texjsFracGo fuel rest

def texjsFrac (s : List Char) : List Char := texjsFracGo s.length s

/-- `re.sub(r'_([^{])', r'_{\\1}', s)`: the template `\\1` is an escaped
backslash followed by the digit 1, so the matched character is replaced by the
two literal characters `\` and `1`. -/
def texjsUnderGo : ℕ → List Char → List Char
  | 0, s => s
  | _ + 1, [] => []
  | fuel + 1, '_' :: c :: rest =>
    if c ≠ '{' then "_\x7b\\1\x7d".toList ++ texjsUnderGo fuel rest
    else '_' :: texjsUnderGo fuel (c :: rest)
  | fuel + 1, c :: rest => c :: texjsUnderGo fuel rest

def texjsUnder (s : List Char) : List Char := texjsUnderGo s.length s

/-- `re.sub(r'\^([^{])', r'^{\\1}', s)`: same literal-template behaviour. -/
def texjsCaretGo : ℕ → List Char → List Char
  | 0, s => s
  | _ + 1, [] => []
  | fuel + 1, '^' :: c :: rest =>
    if c ≠ '{' then "^\x7b\\1\x7d".toList ++ texjsCaretGo fuel rest
    else '^' :: texjsCaretGo fuel (c :: rest)
  | fuel + 1, c :: rest => c :: texjsCaretGo fuel rest

def texjsCaret (s : List Char) : List Char := texjsCaretGo s.length s

/-- `LatexProcessor.convert_to_texjs`. -/
def convert_to_texjs (latex_text : List Char) : List Char :=
  let r := texjs_conversions.foldl (fun acc pr => replaceAll pr.1 pr.2 acc) latex_text
  let r := texjsFrac r
  let r := texjsUnder r
  let r := texjsCaret r
  let r := replaceAll "\\,".toList " ".toList r
  let r := replaceAll "\\;".toList " ".toList r
  let r := replaceAll "\\:".toList " ".toList r
  let r := replaceAll "\\!".toList "".toList r
  r

/-- `FormulaDetector.convertir_a_latex`: direct `conversiones` substitutions in
dict order, then the `patrones` regex rewrites, then whitespace collapse and
strip, then `convert_to_texjs`. -/
def convertir_a_latex (texto : List Char) : List Char :=
  let r := conversiones.foldl (fun acc pr => replaceAll pr.1 pr.2 acc) texto
  let r := patrones_apply r
  let r := strip_ws (collapse_ws r)
  convert_to_texjs r

/-- Claim C6 (code bug): on the spec's concrete scenario input `"x^2 + 1/2"`,
`convertir_a_latex` produces `"{x}^{2} + 1\\nabla \cdot2"`: the exponent is
rewritten to `{x}^{2}` as claimed, but no `\frac{1}{2}` is produced, because
the direct substitution `'/' -> '\div'` runs before the fraction pattern
`(\d+)/(\d+)` (which can then never match) and the later `'div'` key rewrites
the `div` inside the fresh `\div` into `\nabla \cdot`.  The code's own dead
fraction rule documents the intended behaviour the spec describes. -/
theorem convertir_a_latex_scenario_a_eval :
    convertir_a_latex "x^2 + 1/2".toList =
      "\x7bx\x7d^\x7b2\x7d + 1\\\\nabla \\cdot2".toList ∧
    isSubstr "\x7bx\x7d^\x7b2\x7d".toList (convertir_a_latex "x^2 + 1/2".toList)
      = true ∧
    isSubstr "\\frac\x7b1\x7d\x7b2\x7d".toList
      (convertir_a_latex "x^2 + 1/2".toList) = false := by
  refine ⟨by decide, by decide, by decide⟩

/-! ### Claim C7: confidence monotonicity under inserting `\sqrt{}`

`_calculate_confidence` scores a formula by length, recognized constructs,
balance and validity, where the recognized constructs are the raw strings
`r'\\\\frac'`, `r'\\\\sum'`, `r'\\\\int'`, `r'\\\\sqrt'` - double-backslash
spellings tested by plain containment.  Inserting the claim's single-backslash
token `\sqrt{}` therefore earns no construct bonus, and when the insertion
point cuts through an occurrence of a double-backslash construct the score
drops: the claim is refuted by a concrete run below.  Inserting the construct
in the spelling the code actually recognizes, `\\sqrt{}`, is monotone: the
length only grows, the token is stack-neutral so balance is preserved,
validity is preserved (the token contains a `\sqrt{` match), and among the
other recognized constructs at most one occurrence set can be destroyed by
the single cut point, which the new `\\sqrt` bonus compensates. -/

/-- The claim's inserted token `\sqrt{}` as written (single backslash). -/
def sqrtTok : List Char := "\\sqrt\x7b\x7d".toList

/-- The same construct in the spelling the code's `math_symbols` list
recognizes: `\\sqrt{}` (double backslash). -/
def sqrtTokCode : List Char := "\\\\sqrt\x7b\x7d".toList

theorem balancedStructStep_eq : balancedStructStep = balanceStep := by
  funext st ch
  cases st <;> rfl

theorem foldl_balanceStep_sqrtTokCode (st : List Char) :
    sqrtTokCode.foldl balanceStep (some st) = some st := rfl

/-- Inserting a stack-neutral token anywhere preserves acceptance by the
balance checker. -/
theorem check_balanced_structure_insert (s t tok : List Char)
    (htok : ∀ st : List Char, tok.foldl balanceStep (some st) = some st)
    (h : check_balanced_structure (s ++ t) = true) :
    check_balanced_structure (s ++ tok ++ t) = true := by
  simp only [check_balanced_structure, balancedStructStep_eq] at h ⊢
  match hrun : (s ++ t).foldl balanceStep (some []) with
  | none => rw [hrun] at h; exact absurd h (by simp)
  | some stack =>
    rw [hrun] at h
    obtain rfl : stack = [] := by simpa [List.isEmpty_iff] using h
    obtain ⟨st₁, hs⟩ := foldl_balanceStep_append s t hrun
    have ht : t.foldl balanceStep (some st₁) = some [] := by
      rw [List.foldl_append, hs] at hrun
      exact hrun
    have : (s ++ tok ++ t).foldl balanceStep (some []) = some [] := by
      rw [List.foldl_append, List.foldl_append, hs, htok, ht]
    rw [this]
    rfl

theorem isSubstr_append_left {p a : List Char} (b : List Char)
    (h : isSubstr p a = true) : isSubstr p (a ++ b) = true :=
  (isSubstr_iff p (a ++ b)).mpr (((isSubstr_iff p a).mp h).trans
    (List.prefix_append a b).isInfix)

theorem isSubstr_append_right {p b : List Char} (a : List Char)
    (h : isSubstr p b = true) : isSubstr p (a ++ b) = true :=
  (isSubstr_iff p (a ++ b)).mpr (((isSubstr_iff p b).mp h).trans
    (List.suffix_append a b).isInfix)

theorem isSubstr_middle {p tok : List Char} (s t : List Char)
    (h : isSubstr p tok = true) : isSubstr p (s ++ tok ++ t) = true :=
  (isSubstr_iff p (s ++ tok ++ t)).mpr (((isSubstr_iff p tok).mp h).trans
    (List.infix_append s tok t))

/-- An occurrence of `p` in `a ++ b` that lies neither inside `a` nor inside
`b` crosses the boundary: `p` splits into a nonempty suffix of `a` followed by
a nonempty prefix of `b`. -/
theorem isSubstr_append_split {p a b : List Char}
    (h : isSubstr p (a ++ b) = true)
    (ha : isSubstr p a = false) (hb : isSubstr p b = false) :
    ∃ x y, p = x ++ y ∧ x ≠ [] ∧ y ≠ [] ∧ x <:+ a ∧ y <+: b := by
  obtain ⟨u, v, huv⟩ := (isSubstr_iff p (a ++ b)).mp h
  rw [List.append_assoc] at huv
  rcases List.append_eq_append_iff.mp huv with ⟨w, hw1, hw2⟩ | ⟨w, hw1, hw2⟩
  · rcases List.append_eq_append_iff.mp hw2 with ⟨z, hz1, hz2⟩ | ⟨z, hz1, hz2⟩
    · exfalso
      rw [hz1] at hw1
      have : isSubstr p a = true :=
        (isSubstr_iff p a).mpr ⟨u, z, by rw [hw1, List.append_assoc]⟩
      rw [this] at ha
      exact absurd ha (by simp)
    · rcases eq_or_ne w [] with rfl | hwne
      · exfalso
        simp only [List.nil_append] at hz1
        have : isSubstr p b = true :=
          (isSubstr_iff p b).mpr ⟨[], v, by rw [hz2, hz1]; simp⟩
        rw [this] at hb
        exact absurd hb (by simp)
      · rcases eq_or_ne z [] with rfl | hzne
        · exfalso
          rw [List.append_nil] at hz1
          have : isSubstr p a = true :=
            (isSubstr_iff p a).mpr ⟨u, [], by rw [hw1, hz1]; simp⟩
          rw [this] at ha
          exact absurd ha (by simp)
        · exact ⟨w, z, hz1, hwne, hzne, ⟨u, hw1.symm⟩, ⟨v, hz2.symm⟩⟩
  · exfalso
    have : isSubstr p b = true :=
      (isSubstr_iff p b).mpr ⟨w, v, by rw [hw2, List.append_assoc]⟩
    rw [this] at hb
    exact absurd hb (by simp)

/-- `p` has an occurrence crossing the cut between `a` and `b`. -/
def crossSplit (p a b : List Char) : Prop :=
  ∃ x y, p = x ++ y ∧ x ≠ [] ∧ y ≠ [] ∧ x <:+ a ∧ y <+: b

theorem crossSplit_incompat {a b p₁ p₂ : List Char}
    (h₁ : crossSplit p₁ a b) (h₂ : crossSplit p₂ a b) :
    ∃ k₁ k₂, 0 < k₁ ∧ k₁ < p₁.length ∧ 0 < k₂ ∧ k₂ < p₂.length ∧
      (p₁.take k₁ <:+ p₂.take k₂ ∨ p₂.take k₂ <:+ p₁.take k₁) ∧
      (p₁.drop k₁ <+: p₂.drop k₂ ∨ p₂.drop k₂ <+: p₁.drop k₁) := by
  obtain ⟨x₁, y₁, hp₁, hx₁, hy₁, hsx₁, hpy₁⟩ := h₁
  obtain ⟨x₂, y₂, hp₂, hx₂, hy₂, hsx₂, hpy₂⟩ := h₂
  refine ⟨x₁.length, x₂.length, List.length_pos.mpr hx₁, ?_,
    List.length_pos.mpr hx₂, ?_, ?_, ?_⟩
  · rw [hp₁, List.length_append]
    have := List.length_pos.mpr hy₁
    omega
  · rw [hp₂, List.length_append]
    have := List.length_pos.mpr hy₂
    omega
  · rw [hp₁, hp₂, List.take_left, List.take_left]
    exact List.suffix_or_suffix_of_suffix hsx₁ hsx₂
  · rw [hp₁, hp₂, List.drop_left, List.drop_left]
    exact List.prefix_or_prefix_of_prefix hpy₁ hpy₂

theorem no_cross_frac_sum (a b : List Char) :
    ¬ (crossSplit "\\\\frac".toList a b ∧ crossSplit "\\\\sum".toList a b) := by
  rintro ⟨h1, h2⟩
  obtain ⟨k₁, k₂, hk₁, hk₁u, hk₂, hk₂u, hsuf, hpre⟩ := crossSplit_incompat h1 h2
  have hl1 : ("\\\\frac".toList).length = 6 := by decide
  have hl2 : ("\\\\sum".toList).length = 5 := by decide
  rw [hl1] at hk₁u
  rw [hl2] at hk₂u
  interval_cases k₁ <;> interval_cases k₂ <;> revert hsuf hpre <;> decide

theorem no_cross_frac_int (a b : List Char) :
    ¬ (crossSplit "\\\\frac".toList a b ∧ crossSplit "\\\\int".toList a b) := by
  rintro ⟨h1, h2⟩
  obtain ⟨k₁, k₂, hk₁, hk₁u, hk₂, hk₂u, hsuf, hpre⟩ := crossSplit_incompat h1 h2
  have hl1 : ("\\\\frac".toList).length = 6 := by decide
  have hl2 : ("\\\\int".toList).length = 5 := by decide
  rw [hl1] at hk₁u
  rw [hl2] at hk₂u
  interval_cases k₁ <;> interval_cases k₂ <;> revert hsuf hpre <;> decide

theorem no_cross_sum_int (a b : List Char) :
    ¬ (crossSplit "\\\\sum".toList a b ∧ crossSplit "\\\\int".toList a b) := by
  rintro ⟨h1, h2⟩
  obtain ⟨k₁, k₂, hk₁, hk₁u, hk₂, hk₂u, hsuf, hpre⟩ := crossSplit_incompat h1 h2
  have hl1 : ("\\\\sum".toList).length = 5 := by decide
  have hl2 : ("\\\\int".toList).length = 5 := by decide
  rw [hl1] at hk₁u
  rw [hl2] at hk₂u
  interval_cases k₁ <;> interval_cases k₂ <;> revert hsuf hpre <;> decide

/-- At most one recognized construct can be destroyed by one insertion point:
decidable core over the six presence booleans. -/
theorem bonus_count :
    ∀ A A' B B' C C' : Bool,
      ¬ (A = true ∧ A' = false ∧ B = true ∧ B' = false) →
      ¬ (A = true ∧ A' = false ∧ C = true ∧ C' = false) →
      ¬ (B = true ∧ B' = false ∧ C = true ∧ C' = false) →
      A.toNat + B.toNat + C.toNat + (false : Bool).toNat ≤
        A'.toNat + B'.toNat + C'.toNat + (true : Bool).toNat := by
  decide

/-- Counterexample to claim C7 as stated: the formula
`f = "1234567890\\frac"` is balanced, passes the validity check, and contains
`\sqrt` in neither spelling; inserting the claim's token `\sqrt{}` between
`"1234567890\\f"` and `"rac"` cuts the `\\frac` occurrence, the construct
bonus is lost and not replaced (the code recognizes only `\\sqrt`), and the
computed confidence drops from 85 to 70. -/
theorem calculate_confidence_sqrt_insertion_cex :
    check_balanced_structure ("1234567890\\\\f".toList ++ "rac".toList) = true ∧
    is_valid_latex ("1234567890\\\\f".toList ++ "rac".toList) = true ∧
    isSubstr "\\sqrt".toList ("1234567890\\\\f".toList ++ "rac".toList) = false ∧
    isSubstr "\\\\sqrt".toList ("1234567890\\\\f".toList ++ "rac".toList) = false ∧
    calculate_confidence ("1234567890\\\\f".toList ++ "rac".toList) = 85 ∧
    calculate_confidence ("1234567890\\\\f".toList ++ sqrtTok ++ "rac".toList) = 70 ∧
    calculate_confidence ("1234567890\\\\f".toList ++ sqrtTok ++ "rac".toList) <
      calculate_confidence ("1234567890\\\\f".toList ++ "rac".toList) := by
  have h85 : calculate_confidence ("1234567890\\\\f".toList ++ "rac".toList) = 85 := by
    have e0 : 10 < ("1234567890\\\\f".toList ++ "rac".toList).length := by decide
    have e1 : isSubstr "\\\\frac".toList ("1234567890\\\\f".toList ++ "rac".toList)
        = true := by decide
    have e2 : isSubstr "\\\\sum".toList ("1234567890\\\\f".toList ++ "rac".toList)
        = false := by decide
    have e3 : isSubstr "\\\\int".toList ("1234567890\\\\f".toList ++ "rac".toList)
        = false := by decide
    have e4 : isSubstr "\\\\sqrt".toList ("1234567890\\\\f".toList ++ "rac".toList)
        = false := by decide
    have e5 : check_balanced_structure ("1234567890\\\\f".toList ++ "rac".toList)
        = true := by decide
    have e6 : is_valid_latex ("1234567890\\\\f".toList ++ "rac".toList) = true := by
      decide
    simp only [calculate_confidence, e0, e1, e2, e3, e4, e5, e6, if_true, if_false,
      Bool.false_eq_true]
    norm_num
  have h70 : calculate_confidence
      ("1234567890\\\\f".toList ++ sqrtTok ++ "rac".toList) = 70 := by
    have e0 : 10 < ("1234567890\\\\f".toList ++ sqrtTok ++ "rac".toList).length := by
      decide
    have e1 : isSubstr "\\\\frac".toList
        ("1234567890\\\\f".toList ++ sqrtTok ++ "rac".toList) = false := by decide
    have e2 : isSubstr "\\\\sum".toList
        ("1234567890\\\\f".toList ++ sqrtTok ++ "rac".toList) = false := by decide
    have e3 : isSubstr "\\\\int".toList
        ("1234567890\\\\f".toList ++ sqrtTok ++ "rac".toList) = false := by decide
    have e4 : isSubstr "\\\\sqrt".toList
        ("1234567890\\\\f".toList ++ sqrtTok ++ "rac".toList) = false := by decide
    have e5 : check_balanced_structure
        ("1234567890\\\\f".toList ++ sqrtTok ++ "rac".toList) = true := by decide
    have e6 : is_valid_latex
        ("1234567890\\\\f".toList ++ sqrtTok ++ "rac".toList) = true := by decide
    simp only [calculate_confidence, e0, e1, e2, e3, e4, e5, e6, if_true, if_false,
      Bool.false_eq_true]
    norm_num
  refine ⟨by decide, by decide, by decide, by decide, h85, h70, ?_⟩
  rw [h85, h70]
  norm_num

/-- Claim C7 as amended: the confidence computation `_calculate_confidence` is
monotone under inserting the recognized construct in the spelling the code's
`math_symbols` list recognizes, `\\sqrt{}`: for every formula `f = s ++ t`
that is balanced and passes the validity check and does not already contain
`\\sqrt`, the formula with `\\sqrt{}` inserted at the cut point scores at
least as high. -/
theorem calculate_confidence_sqrt_insertion (s t : List Char)
    (hbal : check_balanced_structure (s ++ t) = true)
    (hval : is_valid_latex (s ++ t) = true)
    (hnew : isSubstr "\\\\sqrt".toList (s ++ t) = false) :
    calculate_confidence (s ++ t) ≤
      calculate_confidence (s ++ sqrtTokCode ++ t) := by
  have hbal' := check_balanced_structure_insert s t sqrtTokCode
    foldl_balanceStep_sqrtTokCode hbal
  have hsqrt' : isSubstr "\\\\sqrt".toList (s ++ sqrtTokCode ++ t) = true := by
    refine (isSubstr_iff _ _).mpr ?_
    have h1 : "\\\\sqrt".toList <+: sqrtTokCode := by decide
    exact h1.isInfix.trans (List.infix_append s sqrtTokCode t)
  have hval' : is_valid_latex (s ++ sqrtTokCode ++ t) = true := by
    have hsub : isSubstr "\\sqrt".toList (s ++ sqrtTokCode ++ t) = true :=
      isSubstr_middle s t (by decide)
    unfold is_valid_latex
    rw [hsub]
    simp
  have hpres : ∀ q : List Char, isSubstr q (s ++ t) = true →
      isSubstr q (s ++ sqrtTokCode ++ t) = false → crossSplit q s t := by
    intro q hq hq'
    have hqs : isSubstr q s = false := by
      cases hqs : isSubstr q s with
      | false => rfl
      | true =>
        have h2 : isSubstr q (s ++ sqrtTokCode ++ t) = true :=
          isSubstr_append_left t (isSubstr_append_left sqrtTokCode hqs)
        rw [h2] at hq'
        exact absurd hq' (by simp)
    have hqt : isSubstr q t = false := by
      cases hqt : isSubstr q t with
      | false => rfl
      | true =>
        have h2 : isSubstr q (s ++ sqrtTokCode ++ t) = true :=
          isSubstr_append_right (s ++ sqrtTokCode) hqt
        rw [h2] at hq'
        exact absurd hq' (by simp)
    exact isSubstr_append_split hq hqs hqt
  have hAB : ¬ (isSubstr "\\\\frac".toList (s ++ t) = true ∧
      isSubstr "\\\\frac".toList (s ++ sqrtTokCode ++ t) = false ∧
      isSubstr "\\\\sum".toList (s ++ t) = true ∧
      isSubstr "\\\\sum".toList (s ++ sqrtTokCode ++ t) = false) := by
    rintro ⟨h1, h2, h3, h4⟩
    exact no_cross_frac_sum s t ⟨hpres _ h1 h2, hpres _ h3 h4⟩
  have hAC : ¬ (isSubstr "\\\\frac".toList (s ++ t) = true ∧
      isSubstr "\\\\frac".toList (s ++ sqrtTokCode ++ t) = false ∧
      isSubstr "\\\\int".toList (s ++ t) = true ∧
      isSubstr "\\\\int".toList (s ++ sqrtTokCode ++ t) = false) := by
    rintro ⟨h1, h2, h3, h4⟩
    exact no_cross_frac_int s t ⟨hpres _ h1 h2, hpres _ h3 h4⟩
  have hBC : ¬ (isSubstr "\\\\sum".toList (s ++ t) = true ∧
      isSubstr "\\\\sum".toList (s ++ sqrtTokCode ++ t) = false ∧
      isSubstr "\\\\int".toList (s ++ t) = true ∧
      isSubstr "\\\\int".toList (s ++ sqrtTokCode ++ t) = false) := by
    rintro ⟨h1, h2, h3, h4⟩
    exact no_cross_sum_int s t ⟨hpres _ h1 h2, hpres _ h3 h4⟩
  have hnat := bonus_count _ _ _ _ _ _ hAB hAC hBC
  have hlen : (s ++ t).length ≤ (s ++ sqrtTokCode ++ t).length := by
    simp only [List.length_append]
    have h8 : sqrtTokCode.length = 8 := by decide
    omega
  have ecast : ∀ b : Bool, (if b = true then (3/20 : ℚ) else 0)
      = (3/20) * ((b.toNat : ℕ) : ℚ) := by
    intro b
    cases b <;> norm_num
  have hL : (if 10 < (s ++ t).length then (2/10 : ℚ) else 0) ≤
      (if 10 < (s ++ sqrtTokCode ++ t).length then (2/10 : ℚ) else 0) := by
    split_ifs with h1 h2
    · exact le_refl _
    · omega
    · norm_num
    · exact le_refl _
  have hsym : (if isSubstr "\\\\frac".toList (s ++ t) = true then (3/20 : ℚ) else 0) +
        (if isSubstr "\\\\sum".toList (s ++ t) = true then (3/20 : ℚ) else 0) +
        (if isSubstr "\\\\int".toList (s ++ t) = true then (3/20 : ℚ) else 0) +
        (if isSubstr "\\\\sqrt".toList (s ++ t) = true then (3/20 : ℚ) else 0) ≤
      (if isSubstr "\\\\frac".toList (s ++ sqrtTokCode ++ t) = true then (3/20 : ℚ)
        else 0) +
        (if isSubstr "\\\\sum".toList (s ++ sqrtTokCode ++ t) = true then (3/20 : ℚ)
          else 0) +
        (if isSubstr "\\\\int".toList (s ++ sqrtTokCode ++ t) = true then (3/20 : ℚ)
          else 0) +
        (if isSubstr "\\\\sqrt".toList (s ++ sqrtTokCode ++ t) = true then (3/20 : ℚ)
          else 0) := by
    rw [hnew, hsqrt']
    rw [ecast, ecast, ecast, ecast, ecast, ecast, ecast, ecast]
    have hq : (((isSubstr "\\\\frac".toList (s ++ t)).toNat +
        (isSubstr "\\\\sum".toList (s ++ t)).toNat +
        (isSubstr "\\\\int".toList (s ++ t)).toNat +
        (false : Bool).toNat : ℕ) : ℚ) ≤
        (((isSubstr "\\\\frac".toList (s ++ sqrtTokCode ++ t)).toNat +
        (isSubstr "\\\\sum".toList (s ++ sqrtTokCode ++ t)).toNat +
        (isSubstr "\\\\int".toList (s ++ sqrtTokCode ++ t)).toNat +
        (true : Bool).toNat : ℕ) : ℚ) := by
      exact_mod_cast hnat
    push_cast at hq ⊢
    linarith
  simp only [calculate_confidence]
  refine min_le_min (mul_le_mul_of_nonneg_right ?_ (by norm_num)) (le_refl _)
  rw [hbal, hbal', hval, hval']
  simp only [if_true]
  linarith [hL, hsym]

/-- Witness for the amended C7: inserting `\\sqrt{}` into the balanced,
valid, `\\sqrt`-free formula `"(1+2)"` between `"(1+"` and `"2)"`. -/
theorem calculate_confidence_sqrt_insertion_witness :
    check_balanced_structure ("(1+".toList ++ "2)".toList) = true ∧
    is_valid_latex ("(1+".toList ++ "2)".toList) = true ∧
    isSubstr "\\\\sqrt".toList ("(1+".toList ++ "2)".toList) = false ∧
    calculate_confidence ("(1+".toList ++ "2)".toList) ≤
      calculate_confidence ("(1+".toList ++ sqrtTokCode ++ "2)".toList) :=
  ⟨by decide, by decide, by decide,
    calculate_confidence_sqrt_insertion "(1+".toList "2)".toList
      (by decide) (by decide) (by decide)⟩
